import Mathlib

/-!
Shallow embedding of `YAHOO.util.Config` from
`src/widget/container/build/js/container_core-raw.js` (YUI 2 container core).

The Config utility is a reactive property store: a mapping from property
names to descriptors (default value, current value, validator, DOM
dependency, must-change flag, per-property change event), plus a deferred
event queue and an initial-configuration snapshot used by `reset`.

Modelling choices:
- JavaScript values are modelled by `JSVal` (the primitives used by the
  configuration system; object-valued configuration entries are not
  modelled).  JavaScript's loose inequality `!=` (used in `fireEvent`'s
  `mustChange` gate) is modelled by `looseEq` with the standard ToNumber
  coercions.
- JavaScript objects used as string-keyed maps (`config`, `deferredEvents`,
  `initialConfig`, and user configuration literals) are modelled as
  insertion-ordered association lists; assignment to an existing key keeps
  its position, assignment to a fresh key appends.  `for (var p in o)`
  iterates the keys in that order.
- Event firing is modelled observationally: each operation returns the list
  of notifications it fired, in order.  `Ev.propFire k v` stands for
  `config[k].event.fire(v)` (which synchronously invokes every subscriber,
  including the auto-subscribed change handler), and
  `Ev.configChanged k v d` for `configChangedEvent.fire([k, v, d])`.
  Because subscriber invocation is a pure consequence of a channel firing,
  subscriber lists themselves carry no extra observable state and are not
  part of `Config`.
- The DOM collaborator `YAHOO.util.Dom.inDocument` is an external predicate;
  operations that may fire events take it as the argument `dom`
  (element reference ↦ is it attached to the live document at call time).
- `resetProperty` reads `initialConfig[key].value`; member access on a
  JavaScript value throws a TypeError when the value is `undefined` or
  `null`, and yields `undefined` on the other primitives.  The model
  returns `Option`: `none` is the thrown TypeError.
-/

namespace YUIConfig

/-- JavaScript primitive values as used by the configuration system. -/
inductive JSVal where
  | undef
  | null
  | bool (b : Bool)
  | num (n : Int)
  | str (s : String)
  deriving DecidableEq, Repr

/-- ToNumber coercion; `none` models NaN. -/
def jsToNumber : JSVal → Option Int
  | JSVal.undef => none
  | JSVal.null => some 0
  | JSVal.bool b => some (if b then 1 else 0)
  | JSVal.num n => some n
  | JSVal.str s => if s.trim = "" then some 0 else s.trim.toInt?

/-- JavaScript loose equality `==` restricted to the modelled primitives:
`undefined == null`, strings compare as strings against strings, and any
other mixed comparison goes through ToNumber (NaN equal to nothing). -/
def looseEq : JSVal → JSVal → Bool
  | JSVal.undef, JSVal.undef => true
  | JSVal.undef, JSVal.null => true
  | JSVal.null, JSVal.undef => true
  | JSVal.null, JSVal.null => true
  | JSVal.undef, _ => false
  | JSVal.null, _ => false
  | _, JSVal.undef => false
  | _, JSVal.null => false
  | JSVal.str x, JSVal.str y => x == y
  | x, y =>
    match jsToNumber x, jsToNumber y with
    | some m, some n => m == n
    | _, _ => false

/-- Member access `v.f` on a primitive: TypeError (`none`) on
`undefined`/`null`, otherwise the property does not exist and the access
yields `undefined`. -/
def jsMember : JSVal → Option JSVal
  | JSVal.undef => none
  | JSVal.null => none
  | _ => some JSVal.undef

/-- Association list with JavaScript object insertion-order semantics. -/
abbrev AList (α : Type) := List (String × α)

/-- Lookup `o[k]` (as an `Option`; absent keys read as `undefined`). -/
def alookup {α : Type} : AList α → String → Option α
  | [], _ => none
  | (k', v) :: t, k => if k' = k then some v else alookup t k

/-- Assignment `o[k] = v`: overwrite in place if the key exists, else append. -/
def aupsert {α : Type} : AList α → String → α → AList α
  | [], k, v => [(k, v)]
  | (k', v') :: t, k, v =>
    if k' = k then (k, v) :: t else (k', v') :: aupsert t k v

/-- Property descriptor, as built by `addProperty` (line 66): the change
`event` channel and `handler` are represented by the event trace (see module
comment), the remaining fields are carried verbatim. -/
structure Property where
  defaultValue : JSVal
  value : JSVal
  validator : Option (JSVal → Bool)
  dependentElement : Option String
  mustChange : Bool

/-- Notifications observable from a Config instance. -/
inductive Ev where
  | propFire (key : String) (value : JSVal)
  | configChanged (key : String) (value : JSVal) (deferred : Bool)
  deriving DecidableEq, Repr

/-- Private state of one Config instance (`config`, `deferredEvents`,
`initialConfig` in `init`, lines 27-29).  A deferred entry `{ args : v }`
is stored as `v` directly. -/
structure Config where
  config : AList Property
  deferredEvents : AList JSVal
  initialConfig : AList JSVal

/-- Fresh store, as after `init` (before any `addProperty`). -/
def Config.empty : Config := ⟨[], [], []⟩

/-- Source line 148: `property.validator && !property.validator(value)`. -/
def validatorRejects (p : Property) (value : JSVal) : Bool :=
  match p.validator with
  | some f => ! f value
  | none => false

/-- Private `fireEvent` (lines 38-52).  If the property has a DOM dependency
that is not in the document, the value is queued under the key in
`deferredEvents` and `true` is returned; otherwise the property's event
fires (gated, when `mustChange`, on `defaultValue != property.value`) and
`false` is returned.  Returns (deferred flag, new deferred queue, fired
events). -/
def fireEvent (dom : String → Bool) (key : String) (property : Property)
    (value : JSVal) (deferredEvents : AList JSVal) :
    Bool × AList JSVal × List Ev :=
  match property.dependentElement with
  | some el =>
    if dom el then
      (false, deferredEvents,
        if property.mustChange then
          if looseEq property.defaultValue property.value then []
          else [Ev.propFire key value]
        else [Ev.propFire key value])
    else
      (true, aupsert deferredEvents key value, [])
  | none =>
    (false, deferredEvents,
      if property.mustChange then
        if looseEq property.defaultValue property.value then []
        else [Ev.propFire key value]
      else [Ev.propFire key value])

/-- `setProperty` (lines 145-166).  Returns (success, new state, fired
events). -/
def setProperty (dom : String → Bool) (key : String) (value : JSVal)
    (silent : Bool) (c : Config) : Bool × Config × List Ev :=
  match alookup c.config key with
  | none => (false, c, [])
  | some property =>
    if validatorRejects property value then
      (false, c, [])
    else
      let property' : Property := { property with value := value }
      let c' : Config := { c with config := aupsert c.config key property' }
      if silent then
        (true, c', [])
      else
        let fr := fireEvent dom key property' value c'.deferredEvents
        (true, { c' with deferredEvents := fr.2.1 },
          fr.2.2 ++ [Ev.configChanged key value fr.1])

/-- `addProperty` (lines 65-78): installs a fresh descriptor under the key
(overwriting any previous one), subscribes the handler to the property's
channel (observationally part of `Ev.propFire`, see module comment), then
seeds via `this.setProperty(key, val, true)` — a silent set. -/
def addProperty (dom : String → Bool) (key : String) (val : JSVal)
    (vfn : Option (JSVal → Bool)) (el : Option String) (mc : Bool)
    (c : Config) : Config × List Ev :=
  let d : Property :=
    { defaultValue := val, value := JSVal.null, validator := vfn,
      dependentElement := el, mustChange := mc }
  let c' : Config := { c with config := aupsert c.config key d }
  let r := setProperty dom key val true c'
  (r.2.1, r.2.2)

/-- `getProperty` (lines 102-109). -/
def getProperty (key : String) (c : Config) : JSVal :=
  match alookup c.config key with
  | some p => p.value
  | none => JSVal.undef

/-- `getDefault` (lines 116-123). -/
def getDefault (key : String) (c : Config) : JSVal :=
  match alookup c.config key with
  | some p => p.defaultValue
  | none => JSVal.undef

/-- `getConfig` (lines 84-95). -/
def getConfig (c : Config) : AList JSVal :=
  c.config.map (fun kv => (kv.1, kv.2.value))

/-- `resetProperty` (lines 129-136): when the key is registered, calls
`this.setProperty(key, initialConfig[key].value)` non-silently.  The member
access `.value` faults (`none`) when the snapshot holds nothing for the key,
and on the modelled primitives otherwise yields `undefined`. -/
def resetProperty (dom : String → Bool) (key : String) (c : Config) :
    Option (Config × List Ev) :=
  match alookup c.config key with
  | none => some (c, [])
  | some _ =>
    match jsMember ((alookup c.initialConfig key).getD JSVal.undef) with
    | none => none
    | some v =>
      let r := setProperty dom key v false c
      some (r.2.1, r.2.2)

/-- `refireEvent` (lines 172-177). -/
def refireEvent (dom : String → Bool) (key : String) (c : Config) :
    Config × List Ev :=
  match alookup c.config key with
  | none => (c, [])
  | some p =>
    let fr := fireEvent dom key p p.value c.deferredEvents
    ({ c with deferredEvents := fr.2.1 }, fr.2.2)

/-- First loop of `applyConfig` (lines 188-190): silent `setProperty` for
every key of the user configuration, in order. -/
def applyConfigPass1 (dom : String → Bool) (userConfig : AList JSVal)
    (c : Config) : Config :=
  userConfig.foldl (fun acc kv => (setProperty dom kv.1 kv.2 true acc).2.1) c

/-- Fold step shared by the event-firing loops: run `f` on the current state
and one item, and append the events it fired to the trace accumulated so
far. -/
def stepTrace {α : Type} (f : Config → α → Config × List Ev)
    (acc : Config × List Ev) (x : α) : Config × List Ev :=
  ((f acc.1 x).1, acc.2 ++ (f acc.1 x).2)

/-- Body of the second loop of `applyConfig` (lines 192-195): when the key is
registered, `fireEvent` with the user configuration's value. -/
def applyConfigFire (dom : String → Bool) (c : Config)
    (kv : String × JSVal) : Config × List Ev :=
  match alookup c.config kv.1 with
  | some p =>
    let fr := fireEvent dom kv.1 p kv.2 c.deferredEvents
    ({ c with deferredEvents := fr.2.1 }, fr.2.2)
  | none => (c, [])

/-- Second loop of `applyConfig` (lines 191-196): for every key of the user
configuration, in order, the fire logic with the user configuration's
value. -/
def applyConfigPass2 (dom : String → Bool) (userConfig : AList JSVal)
    (c : Config) : Config × List Ev :=
  userConfig.foldl (stepTrace (applyConfigFire dom)) (c, [])

/-- `applyConfig` (lines 184-198): replace the snapshot when `isInitial`,
then the silent pass, then the firing pass. -/
def applyConfig (dom : String → Bool) (userConfig : AList JSVal)
    (isInitial : Bool) (c : Config) : Config × List Ev :=
  applyConfigPass2 dom userConfig
    (applyConfigPass1 dom userConfig
      (if isInitial then { c with initialConfig := userConfig } else c))

/-- `refresh` (lines 203-207): `refireEvent` for every registered key, in
storage order (`refireEvent` never changes the key set, so iterating the
initial key list is faithful to the live `for..in`). -/
def refresh (dom : String → Bool) (c : Config) : Config × List Ev :=
  (c.config.map Prod.fst).foldl
    (stepTrace (fun c' k => refireEvent dom k c')) (c, [])

/-- `reset` (lines 212-214): `applyConfig(initialConfig)`, non-initial. -/
def reset (dom : String → Bool) (c : Config) : Config × List Ev :=
  applyConfig dom c.initialConfig false c

/-- `subscribeToConfigEvent` (lines 224-232): subscribing succeeds exactly
when the key is registered (the subscription itself is observationally part
of `Ev.propFire`, see module comment). -/
def subscribeToConfigEvent (key : String) (c : Config) : Bool :=
  (alookup c.config key).isSome

/-- Body of the `fireDeferredEvents` loop (lines 238-243): when the key is
registered, `fireEvent` with the queued value.  Note the queue entry is not
deleted. -/
def fireDeferredStep (dom : String → Bool) (c : Config) (k : String) :
    Config × List Ev :=
  match alookup c.config k, alookup c.deferredEvents k with
  | some p, some v =>
    let fr := fireEvent dom k p v c.deferredEvents
    ({ c with deferredEvents := fr.2.1 }, fr.2.2)
  | _, _ => (c, [])

/-- `fireDeferredEvents` (lines 237-244): the fire logic for every key of the
deferred queue.  Entries are never deleted; a step can only overwrite its
own key (re-deferral), so the key set is constant and iterating the initial
key list is faithful to the live `for..in`. -/
def fireDeferredEvents (dom : String → Bool) (c : Config) :
    Config × List Ev :=
  (c.deferredEvents.map Prod.fst).foldl
    (stepTrace (fireDeferredStep dom)) (c, [])

/-- Built-in validator `checkBoolean` (lines 253-259). -/
def checkBoolean : JSVal → Bool
  | JSVal.bool _ => true
  | _ => false

/-- Built-in validator `checkNumber` (lines 266-272): `!isNaN(val)`. -/
def checkNumber (val : JSVal) : Bool :=
  (jsToNumber val).isSome

/-- Everywhere-false DOM predicate: no dependent element is attached. -/
def domDetached : String → Bool := fun _ => false

/-- Everywhere-true DOM predicate: every dependent element is attached. -/
def domAttached : String → Bool := fun _ => true

/-! ### Concrete stores used for witnesses and counterexamples -/

/-- Store with one property `m`: default `false`, `mustChange` set. -/
def boolGateStore : Config :=
  (addProperty domDetached "m" (JSVal.bool false) none none true
    Config.empty).1

/-- Store with one property `v`: default `true`, validated by
`checkBoolean`. -/
def validatedStore : Config :=
  (addProperty domDetached "v" (JSVal.bool true) (some checkBoolean) none
    false Config.empty).1

/-- Store with one property `n` whose DOM dependency is the (unattached)
element `el`. -/
def depStore : Config :=
  (addProperty domDetached "n" (JSVal.num 0) none (some "el") false
    Config.empty).1

/-- The `depStore` after a non-silent `setProperty("n", 7)` while `el` is
unattached: the deferred queue holds `7` under `n`. -/
def pendingStore : Config :=
  (setProperty domDetached "n" (JSVal.num 7) false depStore).2.1

/-- Store with two plain properties `a` and `b` (no validator, no DOM
dependency). -/
def abStore : Config :=
  (addProperty domDetached "b" (JSVal.num 0) none none false
    (addProperty domDetached "a" (JSVal.num 0) none none false
      Config.empty).1).1

/-- The `abStore` after `applyConfig({a: 10}, true)`: current value and
initial snapshot for `a` are both `10`. -/
def resetBugStore : Config :=
  (applyConfig domDetached [("a", JSVal.num 10)] true abStore).1

/-! ### Association-list lemmas -/

theorem alookup_aupsert_self {α : Type} (l : AList α) (k : String) (v : α) :
    alookup (aupsert l k v) k = some v := by
  induction l with
  | nil => simp [aupsert, alookup]
  | cons kv t ih =>
    obtain ⟨k', v'⟩ := kv
    by_cases h : k' = k
    · simp [aupsert, h, alookup]
    · simp [aupsert, h, alookup, ih]

theorem alookup_aupsert_ne {α : Type} (l : AList α) (k k' : String) (v : α)
    (h : k' ≠ k) : alookup (aupsert l k v) k' = alookup l k' := by
  have h2 : ¬ (k = k') := fun hh => h hh.symm
  induction l with
  | nil => simp [aupsert, alookup, h2]
  | cons kv t ih =>
    obtain ⟨k'', v''⟩ := kv
    by_cases hk : k'' = k
    · subst hk
      simp [aupsert, alookup, h2]
    · by_cases hk' : k'' = k'
      · subst hk'
        simp [aupsert, hk, alookup]
      · simp [aupsert, hk, alookup, hk', ih]

theorem mem_keys_of_alookup {α : Type} (l : AList α) (k : String) (v : α)
    (h : alookup l k = some v) : k ∈ l.map Prod.fst := by
  induction l with
  | nil => simp [alookup] at h
  | cons kv t ih =>
    obtain ⟨k', v'⟩ := kv
    by_cases hk : k' = k
    · subst hk; simp
    · simp only [alookup, if_neg hk] at h
      simp only [List.map_cons, List.mem_cons]
      exact Or.inr (ih h)

theorem alookup_of_mem_nodup {α : Type} (l : AList α) (k : String) (v : α)
    (hmem : (k, v) ∈ l) (hnd : (l.map Prod.fst).Nodup) :
    alookup l k = some v := by
  induction l with
  | nil => cases hmem
  | cons kv t ih =>
    obtain ⟨k', v'⟩ := kv
    simp only [List.map_cons, List.nodup_cons] at hnd
    rcases List.mem_cons.mp hmem with heq | htail
    · rw [show k' = k from (Prod.mk.injEq .. |>.mp heq.symm).1,
        show v' = v from (Prod.mk.injEq .. |>.mp heq.symm).2]
      simp [alookup]
    · have hk : k' ≠ k := by
        intro hh
        subst hh
        exact hnd.1 (List.mem_map_of_mem Prod.fst htail)
      simp only [alookup, if_neg hk]
      exact ih htail hnd.2

theorem mem_keys_aupsert_iff {α : Type} (l : AList α) (k k'' : String)
    (v : α) : k'' ∈ (aupsert l k v).map Prod.fst ↔
      k'' ∈ l.map Prod.fst ∨ k'' = k := by
  induction l with
  | nil => simp [aupsert]
  | cons kv t ih =>
    obtain ⟨k', v'⟩ := kv
    by_cases hk : k' = k
    · subst hk
      simp [aupsert]
      tauto
    · simp [aupsert, hk, ih]
      tauto

theorem nodup_keys_aupsert {α : Type} (l : AList α) (k : String) (v : α)
    (h : (l.map Prod.fst).Nodup) :
    ((aupsert l k v).map Prod.fst).Nodup := by
  induction l with
  | nil => simp [aupsert]
  | cons kv t ih =>
    obtain ⟨k', v'⟩ := kv
    simp only [List.map_cons, List.nodup_cons] at h
    by_cases hk : k' = k
    · subst hk
      simp only [aupsert, if_pos rfl, List.map_cons, List.nodup_cons,
        eq_self_iff_true, if_true]
      exact ⟨h.1, h.2⟩
    · simp only [aupsert, if_neg hk, List.map_cons, List.nodup_cons]
      refine ⟨fun hmem => ?_, ih h.2⟩
      rcases (mem_keys_aupsert_iff t k k' v).mp hmem with hin | heq
      · exact h.1 hin
      · exact hk heq

/-! ### Lemmas about the private fire logic -/

theorem fireEvent_cases (dom : String → Bool) (key : String) (p : Property)
    (v : JSVal) (q : AList JSVal) :
    (∃ el, p.dependentElement = some el ∧ dom el = false ∧
      fireEvent dom key p v q = (true, aupsert q key v, []))
    ∨ ((∀ el, p.dependentElement = some el → dom el = true) ∧
      fireEvent dom key p v q = (false, q,
        if p.mustChange then
          if looseEq p.defaultValue p.value then [] else [Ev.propFire key v]
        else [Ev.propFire key v])) := by
  unfold fireEvent
  cases hdep : p.dependentElement with
  | none =>
    refine Or.inr ⟨fun el h => ?_, rfl⟩
    cases h
  | some el =>
    by_cases hd : dom el = true
    · refine Or.inr ⟨fun el' h => ?_, by simp [hd]⟩
      cases h
      exact hd
    · refine Or.inl ⟨el, rfl, ?_, ?_⟩
      · exact Bool.not_eq_true (dom el) |>.mp hd
      · simp [hd]

theorem fireEvent_trace_sub (dom : String → Bool) (key : String)
    (p : Property) (v : JSVal) (q : AList JSVal) :
    ∀ e ∈ (fireEvent dom key p v q).2.2, e = Ev.propFire key v := by
  rcases fireEvent_cases dom key p v q with ⟨el, _, _, heq⟩ | ⟨_, heq⟩ <;>
    rw [heq] <;> intro e he
  · cases he
  · by_cases hmc : p.mustChange <;>
      by_cases hle : looseEq p.defaultValue p.value <;>
      simp [hmc, hle] at he <;> exact he

theorem fireEvent_queue_ne (dom : String → Bool) (key : String)
    (p : Property) (v : JSVal) (q : AList JSVal) (k' : String)
    (h : k' ≠ key) :
    alookup (fireEvent dom key p v q).2.1 k' = alookup q k' := by
  rcases fireEvent_cases dom key p v q with ⟨el, _, _, heq⟩ | ⟨_, heq⟩ <;>
    rw [heq]
  exact alookup_aupsert_ne q key k' v h

/-! ### Generic lemmas about the event-firing folds -/

theorem foldl_stepTrace_shift {α : Type}
    (f : Config → α → Config × List Ev) (l : List α) :
    ∀ c tr, l.foldl (stepTrace f) (c, tr) =
      ((l.foldl (stepTrace f) (c, [])).1,
        tr ++ (l.foldl (stepTrace f) (c, [])).2) := by
  induction l with
  | nil => intro c tr; simp
  | cons x xs ih =>
    intro c tr
    simp only [List.foldl_cons, stepTrace, List.nil_append]
    rw [ih ((f c x).1) (tr ++ (f c x).2), ih ((f c x).1) ((f c x).2)]
    simp [List.append_assoc]

theorem foldl_stepTrace_preserve {α β : Type}
    (f : Config → α → Config × List Ev) (g : Config → β) :
    ∀ (l : List α), (∀ c' x, x ∈ l → g (f c' x).1 = g c') →
      ∀ c tr, g ((l.foldl (stepTrace f) (c, tr)).1) = g c := by
  intro l
  induction l with
  | nil => intro _ c tr; rfl
  | cons x xs ih =>
    intro hf c tr
    simp only [List.foldl_cons, stepTrace]
    rw [ih (fun c' y hy => hf c' y (List.mem_cons_of_mem x hy))
      ((f c x).1) (tr ++ (f c x).2)]
    exact hf c x (List.mem_cons_self x xs)

theorem foldl_stepTrace_trace_mem {α : Type}
    (f : Config → α → Config × List Ev) (l : List α) :
    ∀ c e, e ∈ (l.foldl (stepTrace f) (c, [])).2 →
      ∃ x c', x ∈ l ∧ e ∈ (f c' x).2 := by
  induction l with
  | nil => intro c e he; simp at he
  | cons x xs ih =>
    intro c e he
    simp only [List.foldl_cons, stepTrace, List.nil_append] at he
    rw [foldl_stepTrace_shift f xs ((f c x).1) ((f c x).2)] at he
    rcases List.mem_append.mp he with h1 | h2
    · exact ⟨x, c, List.mem_cons_self x xs, h1⟩
    · obtain ⟨y, c', hy, hmem⟩ := ih ((f c x).1) e h2
      exact ⟨y, c', List.mem_cons_of_mem x hy, hmem⟩

/-! ### Per-operation structure lemmas -/

theorem fireDeferredStep_config (dom : String → Bool) (c : Config)
    (k : String) : (fireDeferredStep dom c k).1.config = c.config := by
  unfold fireDeferredStep
  cases alookup c.config k <;> cases alookup c.deferredEvents k <;> rfl

theorem fireDeferredStep_queue_ne (dom : String → Bool) (c : Config)
    (k k' : String) (h : k' ≠ k) :
    alookup (fireDeferredStep dom c k).1.deferredEvents k' =
      alookup c.deferredEvents k' := by
  unfold fireDeferredStep
  cases alookup c.config k with
  | none => cases alookup c.deferredEvents k <;> rfl
  | some p =>
    cases alookup c.deferredEvents k with
    | none => rfl
    | some v => exact fireEvent_queue_ne dom k p v c.deferredEvents k' h

theorem fireDeferredStep_trace (dom : String → Bool) (c : Config)
    (k : String) :
    ∀ e ∈ (fireDeferredStep dom c k).2, ∃ v, e = Ev.propFire k v := by
  unfold fireDeferredStep
  cases alookup c.config k with
  | none =>
    cases alookup c.deferredEvents k <;> intro e he <;> cases he
  | some p =>
    cases alookup c.deferredEvents k with
    | none => intro e he; cases he
    | some v =>
      intro e he
      exact ⟨v, fireEvent_trace_sub dom k p v c.deferredEvents e he⟩

theorem applyConfigFire_config (dom : String → Bool) (c : Config)
    (kv : String × JSVal) : (applyConfigFire dom c kv).1.config = c.config := by
  unfold applyConfigFire
  cases alookup c.config kv.1 <;> rfl

theorem applyConfigFire_initialConfig (dom : String → Bool) (c : Config)
    (kv : String × JSVal) :
    (applyConfigFire dom c kv).1.initialConfig = c.initialConfig := by
  unfold applyConfigFire
  cases alookup c.config kv.1 <;> rfl

theorem applyConfigFire_trace (dom : String → Bool) (c : Config)
    (kv : String × JSVal) :
    ∀ e ∈ (applyConfigFire dom c kv).2, e = Ev.propFire kv.1 kv.2 := by
  unfold applyConfigFire
  cases alookup c.config kv.1 with
  | none => intro e he; cases he
  | some p => exact fireEvent_trace_sub dom kv.1 p kv.2 c.deferredEvents

theorem refireEvent_config (dom : String → Bool) (k : String) (c : Config) :
    (refireEvent dom k c).1.config = c.config := by
  unfold refireEvent
  cases alookup c.config k <;> rfl

theorem refireEvent_trace (dom : String → Bool) (k : String) (c : Config) :
    ∀ e ∈ (refireEvent dom k c).2, ∃ v, e = Ev.propFire k v := by
  unfold refireEvent
  cases alookup c.config k with
  | none => intro e he; cases he
  | some p =>
    intro e he
    exact ⟨p.value, fireEvent_trace_sub dom k p p.value c.deferredEvents e he⟩

theorem setProperty_initialConfig (dom : String → Bool) (key : String)
    (v : JSVal) (s : Bool) (c : Config) :
    (setProperty dom key v s c).2.1.initialConfig = c.initialConfig := by
  unfold setProperty
  cases alookup c.config key with
  | none => rfl
  | some p =>
    by_cases hr : validatorRejects p v = true <;>
      by_cases hs : s = true <;> simp [hr, hs]

/-- Registration-time fields of a descriptor: everything except the mutable
current value. -/
def Property.shape (p : Property) :
    JSVal × Option (JSVal → Bool) × Option String × Bool :=
  (p.defaultValue, p.validator, p.dependentElement, p.mustChange)

theorem setProperty_shape (dom : String → Bool) (key : String) (v : JSVal)
    (s : Bool) (c : Config) (k' : String) :
    (alookup (setProperty dom key v s c).2.1.config k').map Property.shape =
      (alookup c.config k').map Property.shape := by
  unfold setProperty
  cases hp : alookup c.config key with
  | none => rfl
  | some p =>
    by_cases hr : validatorRejects p v = true
    · simp [hr]
    · have haup : (alookup (aupsert c.config key { p with value := v })
          k').map Property.shape =
          (alookup c.config k').map Property.shape := by
        by_cases hk : k' = key
        · subst hk
          rw [alookup_aupsert_self, hp]
          rfl
        · rw [alookup_aupsert_ne c.config key k' _ hk]
      by_cases hs : s = true <;> simp [hr, hs] <;> exact haup

theorem validatorRejects_true (p : Property) (v : JSVal) (f : JSVal → Bool)
    (hf : p.validator = some f) (hrej : f v = false) :
    validatorRejects p v = true := by
  unfold validatorRejects
  rw [hf]
  simp [hrej]

theorem validatorRejects_false (p : Property) (v : JSVal)
    (hval : ∀ f, p.validator = some f → f v = true) :
    validatorRejects p v = false := by
  unfold validatorRejects
  cases hv : p.validator with
  | none => rfl
  | some f => simp [hval f hv]

theorem setProperty_silent_eq (dom : String → Bool) (key : String)
    (v : JSVal) (c : Config) (p : Property)
    (hp : alookup c.config key = some p)
    (hrej : validatorRejects p v = false) :
    setProperty dom key v true c =
      (true, { c with config := aupsert c.config key { p with value := v } },
        []) := by
  unfold setProperty
  rw [hp]
  simp [hrej]

theorem setProperty_fire_eq (dom : String → Bool) (key : String)
    (v : JSVal) (c : Config) (p : Property)
    (hp : alookup c.config key = some p)
    (hrej : validatorRejects p v = false) :
    setProperty dom key v false c =
      (true,
        { c with
          config := aupsert c.config key { p with value := v },
          deferredEvents :=
            (fireEvent dom key { p with value := v } v c.deferredEvents).2.1 },
        (fireEvent dom key { p with value := v } v c.deferredEvents).2.2 ++
          [Ev.configChanged key v
            (fireEvent dom key { p with value := v } v c.deferredEvents).1]) := by
  unfold setProperty
  rw [hp]
  simp [hrej]

theorem applyConfigPass1_initialConfig (dom : String → Bool) :
    ∀ (uc : AList JSVal) (c : Config),
      (applyConfigPass1 dom uc c).initialConfig = c.initialConfig := by
  intro uc
  induction uc with
  | nil => intro c; rfl
  | cons kv t ih =>
    intro c
    show (applyConfigPass1 dom t
      ((setProperty dom kv.1 kv.2 true c).2.1)).initialConfig = _
    rw [ih, setProperty_initialConfig]

theorem applyConfigPass1_shape (dom : String → Bool) :
    ∀ (uc : AList JSVal) (c : Config) (k' : String),
      (alookup (applyConfigPass1 dom uc c).config k').map Property.shape =
        (alookup c.config k').map Property.shape := by
  intro uc
  induction uc with
  | nil => intro c k'; rfl
  | cons kv t ih =>
    intro c k'
    show (alookup (applyConfigPass1 dom t
      ((setProperty dom kv.1 kv.2 true c).2.1)).config k').map Property.shape = _
    rw [ih, setProperty_shape]

/-! ### Aggregate-channel lemmas -/

theorem applyConfig_no_aggregate (dom : String → Bool) (uc : AList JSVal)
    (isInitial : Bool) (c : Config) (k : String) (v : JSVal) (d : Bool) :
    Ev.configChanged k v d ∉ (applyConfig dom uc isInitial c).2 := by
  intro hmem
  unfold applyConfig applyConfigPass2 at hmem
  obtain ⟨x, c', _, hmem'⟩ :=
    foldl_stepTrace_trace_mem (applyConfigFire dom) uc _ _ hmem
  exact Ev.noConfusion (applyConfigFire_trace dom c' x _ hmem')

theorem reset_no_aggregate (dom : String → Bool) (c : Config) (k : String)
    (v : JSVal) (d : Bool) : Ev.configChanged k v d ∉ (reset dom c).2 := by
  unfold reset
  exact applyConfig_no_aggregate dom c.initialConfig false c k v d

theorem refresh_no_aggregate (dom : String → Bool) (c : Config) (k : String)
    (v : JSVal) (d : Bool) : Ev.configChanged k v d ∉ (refresh dom c).2 := by
  intro hmem
  unfold refresh at hmem
  obtain ⟨x, c', _, hmem'⟩ := foldl_stepTrace_trace_mem _ _ _ _ hmem
  obtain ⟨v', he⟩ := refireEvent_trace dom x c' _ hmem'
  exact Ev.noConfusion he

theorem refireEvent_no_aggregate (dom : String → Bool) (key : String)
    (c : Config) (k : String) (v : JSVal) (d : Bool) :
    Ev.configChanged k v d ∉ (refireEvent dom key c).2 := by
  intro hmem
  obtain ⟨v', he⟩ := refireEvent_trace dom key c _ hmem
  exact Ev.noConfusion he

theorem fireDeferredEvents_no_aggregate (dom : String → Bool) (c : Config)
    (k : String) (v : JSVal) (d : Bool) :
    Ev.configChanged k v d ∉ (fireDeferredEvents dom c).2 := by
  intro hmem
  unfold fireDeferredEvents at hmem
  obtain ⟨x, c', _, hmem'⟩ := foldl_stepTrace_trace_mem _ _ _ _ hmem
  obtain ⟨v', he⟩ := fireDeferredStep_trace dom c' x _ hmem'
  exact Ev.noConfusion he

theorem setProperty_aggregate_mem (dom : String → Bool) (key : String)
    (value : JSVal) (silent : Bool) (c : Config) (k : String) (v : JSVal)
    (d : Bool)
    (hmem : Ev.configChanged k v d ∈
      (setProperty dom key value silent c).2.2) :
    silent = false ∧ (setProperty dom key value silent c).1 = true ∧
      k = key ∧ v = value := by
  cases hp : alookup c.config key with
  | none =>
    rw [show setProperty dom key value silent c = (false, c, []) from by
      unfold setProperty
      rw [hp]] at hmem
    cases hmem
  | some p =>
    cases hr : validatorRejects p value with
    | true =>
      rw [show setProperty dom key value silent c = (false, c, []) from by
        unfold setProperty
        rw [hp]
        simp [hr]] at hmem
      cases hmem
    | false =>
      cases silent with
      | true =>
        rw [setProperty_silent_eq dom key value c p hp hr] at hmem
        cases hmem
      | false =>
        rw [setProperty_fire_eq dom key value c p hp hr] at hmem ⊢
        rcases List.mem_append.mp hmem with h1 | h2
        · exact absurd
            (fireEvent_trace_sub dom key _ value c.deferredEvents _ h1)
            (fun h => Ev.noConfusion h)
        · have h3 := List.mem_singleton.mp h2
          refine ⟨rfl, rfl, ?_, ?_⟩
          · exact (Ev.configChanged.injEq .. |>.mp h3).1
          · exact (Ev.configChanged.injEq .. |>.mp h3).2.1

theorem setProperty_aggregate_fires (dom : String → Bool) (key : String)
    (value : JSVal) (c : Config)
    (hsucc : (setProperty dom key value false c).1 = true) :
    ∃ d, Ev.configChanged key value d ∈
      (setProperty dom key value false c).2.2 := by
  cases hp : alookup c.config key with
  | none =>
    rw [show setProperty dom key value false c = (false, c, []) from by
      unfold setProperty
      rw [hp]] at hsucc
    cases hsucc
  | some p =>
    cases hr : validatorRejects p value with
    | true =>
      rw [show setProperty dom key value false c = (false, c, []) from by
        unfold setProperty
        rw [hp]
        simp [hr]] at hsucc
      cases hsucc
    | false =>
      rw [setProperty_fire_eq dom key value c p hp hr]
      exact ⟨_, List.mem_append_right _ (List.mem_singleton.mpr rfl)⟩

/-! ### Lemmas for the two applyConfig passes -/

theorem applyConfigPass2_config (dom : String → Bool) (uc : AList JSVal)
    (c : Config) : (applyConfigPass2 dom uc c).1.config = c.config :=
  foldl_stepTrace_preserve (applyConfigFire dom) Config.config uc
    (fun c' x _ => applyConfigFire_config dom c' x) c []

theorem applyConfigPass2_initialConfig (dom : String → Bool)
    (uc : AList JSVal) (c : Config) :
    (applyConfigPass2 dom uc c).1.initialConfig = c.initialConfig :=
  foldl_stepTrace_preserve (applyConfigFire dom) Config.initialConfig uc
    (fun c' x _ => applyConfigFire_initialConfig dom c' x) c []

theorem applyConfigPass2_trace_mem (dom : String → Bool) (uc : AList JSVal)
    (c : Config) (e : Ev) (he : e ∈ (applyConfigPass2 dom uc c).2) :
    ∃ kv, kv ∈ uc ∧ e = Ev.propFire kv.1 kv.2 := by
  unfold applyConfigPass2 at he
  obtain ⟨x, c', hx, hmem⟩ :=
    foldl_stepTrace_trace_mem (applyConfigFire dom) uc c e he
  exact ⟨x, hx, applyConfigFire_trace dom c' x e hmem⟩

theorem applyConfigPass2_fires (dom : String → Bool) (uc : AList JSVal)
    (c : Config) (k : String) (v : JSVal) (p : Property)
    (hkv : (k, v) ∈ uc) (hp : alookup c.config k = some p)
    (hdep : p.dependentElement = none) (hmc : p.mustChange = false) :
    Ev.propFire k v ∈ (applyConfigPass2 dom uc c).2 := by
  obtain ⟨u₁, u₂, huc⟩ := List.append_of_mem hkv
  subst huc
  unfold applyConfigPass2
  rw [List.foldl_append, List.foldl_cons]
  set A := u₁.foldl (stepTrace (applyConfigFire dom)) (c, []) with hA
  have hconf : A.1.config = c.config :=
    foldl_stepTrace_preserve (applyConfigFire dom) Config.config u₁
      (fun c' x _ => applyConfigFire_config dom c' x) c []
  have hXp : alookup A.1.config k = some p := by
    rw [hconf]
    exact hp
  have hstep : applyConfigFire dom A.1 (k, v) =
      (A.1, [Ev.propFire k v]) := by
    simp [applyConfigFire, hXp, fireEvent, hdep, hmc]
  rw [show stepTrace (applyConfigFire dom) A (k, v) =
      ((applyConfigFire dom A.1 (k, v)).1,
        A.2 ++ (applyConfigFire dom A.1 (k, v)).2) from rfl, hstep]
  rw [foldl_stepTrace_shift]
  exact List.mem_append_left _ (List.mem_append_right _
    (List.mem_singleton.mpr rfl))

/-! ### Localized analysis of fireDeferredEvents -/

theorem fireDeferredEvents_split (dom : String → Bool) (c : Config)
    (k : String) (v : JSVal) (p : Property)
    (hnd : (c.deferredEvents.map Prod.fst).Nodup)
    (hq : alookup c.deferredEvents k = some v)
    (hp : alookup c.config k = some p) :
    ∃ (q₁ : AList JSVal) (t₁ t₂ : List Ev),
      (∀ v', Ev.propFire k v' ∉ t₁) ∧ (∀ v', Ev.propFire k v' ∉ t₂) ∧
      alookup q₁ k = some v ∧
      (fireDeferredEvents dom c).2 =
        t₁ ++ (fireEvent dom k p v q₁).2.2 ++ t₂ ∧
      alookup (fireDeferredEvents dom c).1.deferredEvents k =
        alookup (fireEvent dom k p v q₁).2.1 k := by
  have hk : k ∈ c.deferredEvents.map Prod.fst :=
    mem_keys_of_alookup c.deferredEvents k v hq
  obtain ⟨l₁, l₂, hks⟩ := List.append_of_mem hk
  rw [hks] at hnd
  rcases List.nodup_append.mp hnd with ⟨_, h2, hdisj⟩
  have hk2 : k ∉ l₂ := (List.nodup_cons.mp h2).1
  have hk1 : k ∉ l₁ := fun hmem => hdisj hmem (List.mem_cons_self k l₂)
  have hc₁ : (l₁.foldl (stepTrace (fireDeferredStep dom)) (c, [])).1.config
      = c.config :=
    foldl_stepTrace_preserve (fireDeferredStep dom) Config.config l₁
      (fun c' x _ => fireDeferredStep_config dom c' x) c []
  have hq₁ : alookup
      (l₁.foldl (stepTrace (fireDeferredStep dom)) (c, [])).1.deferredEvents
      k = some v := by
    rw [foldl_stepTrace_preserve (fireDeferredStep dom)
      (fun cc => alookup cc.deferredEvents k) l₁
      (fun c' x hx =>
        fireDeferredStep_queue_ne dom c' x k (fun he => hk1 (he ▸ hx))) c []]
    exact hq
  have hXp : alookup
      (l₁.foldl (stepTrace (fireDeferredStep dom)) (c, [])).1.config k
      = some p := by
    rw [hc₁]
    exact hp
  have hstep : fireDeferredStep dom
      (l₁.foldl (stepTrace (fireDeferredStep dom)) (c, [])).1 k =
      ({ (l₁.foldl (stepTrace (fireDeferredStep dom)) (c, [])).1 with
          deferredEvents := (fireEvent dom k p v
            (l₁.foldl (stepTrace (fireDeferredStep dom))
              (c, [])).1.deferredEvents).2.1 },
        (fireEvent dom k p v
          (l₁.foldl (stepTrace (fireDeferredStep dom))
            (c, [])).1.deferredEvents).2.2) := by
    simp [fireDeferredStep, hXp, hq₁]
  have hfd : fireDeferredEvents dom c =
      ((l₂.foldl (stepTrace (fireDeferredStep dom))
          ((fireDeferredStep dom
            (l₁.foldl (stepTrace (fireDeferredStep dom)) (c, [])).1 k).1,
            [])).1,
        ((l₁.foldl (stepTrace (fireDeferredStep dom)) (c, [])).2 ++
          (fireDeferredStep dom
            (l₁.foldl (stepTrace (fireDeferredStep dom)) (c, [])).1 k).2) ++
          (l₂.foldl (stepTrace (fireDeferredStep dom))
            ((fireDeferredStep dom
              (l₁.foldl (stepTrace (fireDeferredStep dom)) (c, [])).1 k).1,
              [])).2) := by
    unfold fireDeferredEvents
    rw [hks, List.foldl_append, List.foldl_cons]
    exact foldl_stepTrace_shift (fireDeferredStep dom) l₂ _ _
  refine ⟨(l₁.foldl (stepTrace (fireDeferredStep dom)) (c, [])).1.deferredEvents,
    (l₁.foldl (stepTrace (fireDeferredStep dom)) (c, [])).2,
    (l₂.foldl (stepTrace (fireDeferredStep dom))
      ((fireDeferredStep dom
        (l₁.foldl (stepTrace (fireDeferredStep dom)) (c, [])).1 k).1,
        [])).2,
    ?_, ?_, hq₁, ?_, ?_⟩
  · intro v' hmem
    obtain ⟨x, c', hx, hmem'⟩ := foldl_stepTrace_trace_mem _ _ _ _ hmem
    obtain ⟨v'', he⟩ := fireDeferredStep_trace dom c' x _ hmem'
    have hke : k = x := (Ev.propFire.injEq .. |>.mp he).1
    exact hk1 (hke ▸ hx)
  · intro v' hmem
    obtain ⟨x, c', hx, hmem'⟩ := foldl_stepTrace_trace_mem _ _ _ _ hmem
    obtain ⟨v'', he⟩ := fireDeferredStep_trace dom c' x _ hmem'
    have hke : k = x := (Ev.propFire.injEq .. |>.mp he).1
    exact hk2 (hke ▸ hx)
  · rw [hfd, hstep, List.append_assoc]
  · rw [hfd, hstep]
    exact foldl_stepTrace_preserve (fireDeferredStep dom)
      (fun cc => alookup cc.deferredEvents k) l₂
      (fun c' x hx =>
        fireDeferredStep_queue_ne dom c' x k (fun he => hk2 (he ▸ hx))) _ []

/-! ### Claim theorems -/

/-- C7: `setProperty` with a value the registered validator rejects returns
`false`, leaves the whole store state (including `currentValue`) unchanged,
and fires no notification on either the property's channel or the aggregate
channel. -/
theorem setProperty_validator_reject (dom : String → Bool) (key : String)
    (v : JSVal) (silent : Bool) (c : Config) (p : Property)
    (f : JSVal → Bool) (hp : alookup c.config key = some p)
    (hf : p.validator = some f) (hrej : f v = false) :
    setProperty dom key v silent c = (false, c, []) := by
  unfold setProperty
  rw [hp]
  simp [validatorRejects_true p v f hf hrej]

/-- C7 witness: in `validatedStore`, setting `v` to the number `1` is
rejected by `checkBoolean` with no state change and no events. -/
theorem setProperty_validator_reject_witness :
    setProperty domDetached "v" (JSVal.num 1) false validatedStore =
      (false, validatedStore, []) :=
  setProperty_validator_reject domDetached "v" (JSVal.num 1) false
    validatedStore
    { defaultValue := JSVal.bool true, value := JSVal.bool true,
      validator := some checkBoolean, dependentElement := none,
      mustChange := false }
    checkBoolean rfl rfl rfl

/-- C8: every operation on an unregistered name returns its failure
indicator (`undefined` or `false`), never faults, and leaves the store
unchanged. -/
theorem unknown_name_safe (key : String) (c : Config)
    (h : alookup c.config key = none) :
    getProperty key c = JSVal.undef ∧
    getDefault key c = JSVal.undef ∧
    (∀ dom v silent, setProperty dom key v silent c = (false, c, [])) ∧
    (∀ dom, resetProperty dom key c = some (c, [])) ∧
    subscribeToConfigEvent key c = false := by
  refine ⟨?_, ?_, ?_, ?_, ?_⟩
  · unfold getProperty
    rw [h]
  · unfold getDefault
    rw [h]
  · intro dom v silent
    unfold setProperty
    rw [h]
  · intro dom
    unfold resetProperty
    rw [h]
  · unfold subscribeToConfigEvent
    rw [h]
    rfl

/-- C8 witness: the unknown name `nope` on the empty store. -/
theorem unknown_name_safe_witness :
    getProperty "nope" Config.empty = JSVal.undef ∧
    getDefault "nope" Config.empty = JSVal.undef ∧
    (∀ dom v silent,
      setProperty dom "nope" v silent Config.empty =
        (false, Config.empty, [])) ∧
    (∀ dom, resetProperty dom "nope" Config.empty =
      some (Config.empty, [])) ∧
    subscribeToConfigEvent "nope" Config.empty = false :=
  unknown_name_safe "nope" Config.empty rfl

/-- C2 counterexample: at the concrete registration
`addProperty("n", 5)` on an empty store, no notification fires at all —
neither the property's own channel nor the aggregate channel — because the
seed `setProperty` at line 77 passes `silent = true`; the claim's
"immediately fires" is false on the code. -/
theorem addProperty_claim_cex :
    (addProperty domDetached "n" (JSVal.num 5) none none false
      Config.empty).2 = [] ∧
    Ev.propFire "n" (JSVal.num 5) ∉
      (addProperty domDetached "n" (JSVal.num 5) none none false
        Config.empty).2 ∧
    ∀ d, Ev.configChanged "n" (JSVal.num 5) d ∉
      (addProperty domDetached "n" (JSVal.num 5) none none false
        Config.empty).2 := by
  refine ⟨rfl, by decide, by decide⟩

/-- C2 (amended): `addProperty(name, defaultValue, ...)` seeds
`currentValue` with `defaultValue` through a silent set, so no notification
fires on either channel at registration time; afterwards both
`getProperty` and `getDefault` return the default value (provided the
validator, when present, accepts it). -/
theorem addProperty_seeds_silently (dom : String → Bool) (key : String)
    (val : JSVal) (vfn : Option (JSVal → Bool)) (el : Option String)
    (mc : Bool) (c : Config)
    (hval : ∀ f, vfn = some f → f val = true) :
    (addProperty dom key val vfn el mc c).2 = [] ∧
    getProperty key (addProperty dom key val vfn el mc c).1 = val ∧
    getDefault key (addProperty dom key val vfn el mc c).1 = val := by
  have hrej : validatorRejects
      { defaultValue := val, value := JSVal.null, validator := vfn,
        dependentElement := el, mustChange := mc } val = false :=
    validatorRejects_false _ val hval
  simp only [addProperty]
  rw [setProperty_silent_eq dom key val _ _
    (alookup_aupsert_self c.config key _) hrej]
  refine ⟨rfl, ?_, ?_⟩
  · simp [getProperty, alookup_aupsert_self]
  · simp [getDefault, alookup_aupsert_self]

/-- C2 witness: registering `n` with default `5` and no validator. -/
theorem addProperty_seeds_silently_witness :
    (addProperty domDetached "n" (JSVal.num 5) none none false
      Config.empty).2 = [] ∧
    getProperty "n" (addProperty domDetached "n" (JSVal.num 5) none none
      false Config.empty).1 = JSVal.num 5 ∧
    getDefault "n" (addProperty domDetached "n" (JSVal.num 5) none none
      false Config.empty).1 = JSVal.num 5 :=
  addProperty_seeds_silently domDetached "n" (JSVal.num 5) none none false
    Config.empty (fun _ h => nomatch h)

/-- C6: with `mustChangeToFire` set, a non-silent `setProperty` whose DOM
dependency is satisfied (or absent) succeeds and fires the property's
change channel exactly when the value being set differs (JavaScript `!=`)
from the descriptor's registration-time default — independent of the
previous current value, which is unconstrained here. -/
theorem setProperty_mustChange_gate (dom : String → Bool) (key : String)
    (v : JSVal) (c : Config) (p : Property)
    (hp : alookup c.config key = some p) (hmc : p.mustChange = true)
    (hdep : ∀ el, p.dependentElement = some el → dom el = true)
    (hval : ∀ f, p.validator = some f → f v = true) :
    (setProperty dom key v false c).1 = true ∧
    (Ev.propFire key v ∈ (setProperty dom key v false c).2.2 ↔
      looseEq p.defaultValue v = false) := by
  have hrej := validatorRejects_false p v hval
  have hfe : fireEvent dom key { p with value := v } v c.deferredEvents =
      (false, c.deferredEvents,
        if looseEq p.defaultValue v then [] else [Ev.propFire key v]) := by
    cases hd : p.dependentElement with
    | none => simp [fireEvent, hd, hmc]
    | some el => simp [fireEvent, hd, hdep el hd, hmc]
  rw [setProperty_fire_eq dom key v c p hp hrej, hfe]
  constructor
  · rfl
  · cases hle : looseEq p.defaultValue v <;> simp [hle]

/-- C6 witness: in `boolGateStore` (default `false`, `mustChange`),
setting `m` to `true` fires the property channel and setting it to `false`
does not. -/
theorem setProperty_mustChange_gate_witness :
    (Ev.propFire "m" (JSVal.bool true) ∈
      (setProperty domDetached "m" (JSVal.bool true) false
        boolGateStore).2.2) ∧
    (Ev.propFire "m" (JSVal.bool false) ∉
      (setProperty domDetached "m" (JSVal.bool false) false
        boolGateStore).2.2) := by
  have h1 := setProperty_mustChange_gate domDetached "m" (JSVal.bool true)
    boolGateStore
    { defaultValue := JSVal.bool false, value := JSVal.bool false,
      validator := none, dependentElement := none, mustChange := true }
    rfl rfl (fun _ h => nomatch h) (fun _ h => nomatch h)
  have h2 := setProperty_mustChange_gate domDetached "m" (JSVal.bool false)
    boolGateStore
    { defaultValue := JSVal.bool false, value := JSVal.bool false,
      validator := none, dependentElement := none, mustChange := true }
    rfl rfl (fun _ h => nomatch h) (fun _ h => nomatch h)
  refine ⟨h1.2.mpr (by decide), fun hmem => ?_⟩
  have := h2.2.mp hmem
  exact absurd this (by decide)

/-- C5: a non-silent `setProperty` on a registered property whose DOM
dependency is not attached succeeds, queues the value under the property's
name (an upsert, so a second deferral for the same name overwrites and at
most one pending value per property is kept), does not fire the property's
own channel, and fires the aggregate channel immediately with the deferred
flag `true`. -/
theorem setProperty_defers_when_unattached (dom : String → Bool)
    (key : String) (v : JSVal) (c : Config) (p : Property) (el : String)
    (hp : alookup c.config key = some p)
    (hdep : p.dependentElement = some el) (hel : dom el = false)
    (hval : ∀ f, p.validator = some f → f v = true) :
    (setProperty dom key v false c).1 = true ∧
    (setProperty dom key v false c).2.1.deferredEvents =
      aupsert c.deferredEvents key v ∧
    (setProperty dom key v false c).2.2 = [Ev.configChanged key v true] ∧
    alookup (setProperty dom key v false c).2.1.deferredEvents key =
      some v ∧
    ((c.deferredEvents.map Prod.fst).Nodup →
      ((setProperty dom key v false c).2.1.deferredEvents.map
        Prod.fst).Nodup) := by
  have hrej := validatorRejects_false p v hval
  have hfe : fireEvent dom key { p with value := v } v c.deferredEvents =
      (true, aupsert c.deferredEvents key v, []) := by
    simp [fireEvent, hdep, hel]
  rw [setProperty_fire_eq dom key v c p hp hrej, hfe]
  refine ⟨rfl, rfl, rfl, alookup_aupsert_self c.deferredEvents key v,
    fun hnd => nodup_keys_aupsert c.deferredEvents key v hnd⟩

/-- C5 witness: in `depStore` (dependency `el` unattached), setting `n` to
`7` defers. -/
theorem setProperty_defers_when_unattached_witness :
    (setProperty domDetached "n" (JSVal.num 7) false depStore).1 = true ∧
    (setProperty domDetached "n" (JSVal.num 7) false
      depStore).2.1.deferredEvents =
      aupsert depStore.deferredEvents "n" (JSVal.num 7) ∧
    (setProperty domDetached "n" (JSVal.num 7) false depStore).2.2 =
      [Ev.configChanged "n" (JSVal.num 7) true] ∧
    alookup (setProperty domDetached "n" (JSVal.num 7) false
      depStore).2.1.deferredEvents "n" = some (JSVal.num 7) ∧
    ((depStore.deferredEvents.map Prod.fst).Nodup →
      ((setProperty domDetached "n" (JSVal.num 7) false
        depStore).2.1.deferredEvents.map Prod.fst).Nodup) :=
  setProperty_defers_when_unattached domDetached "n" (JSVal.num 7) depStore
    { defaultValue := JSVal.num 0, value := JSVal.num 0,
      validator := none, dependentElement := some "el",
      mustChange := false }
    "el" rfl rfl rfl (fun _ h => nomatch h)

/-- C3 (code bug witness): after `applyConfig({a: 10}, true)` on a store
with properties `a` and `b`, the snapshot holds `10` for `a` and
`getProperty("a")` is `10`; yet `resetProperty("a")` sets the property to
`undefined` — line 132 reads `initialConfig[key].value` although the
snapshot stores plain values — and `resetProperty("b")`, whose name is
registered but absent from the snapshot, throws a TypeError (modelled as
`none`) instead of being a no-op. -/
theorem resetProperty_bug :
    alookup resetBugStore.initialConfig "a" = some (JSVal.num 10) ∧
    getProperty "a" resetBugStore = JSVal.num 10 ∧
    (resetProperty domDetached "a" resetBugStore).map
      (fun r => getProperty "a" r.1) = some JSVal.undef ∧
    resetProperty domDetached "b" resetBugStore = none := by
  refine ⟨rfl, rfl, rfl, rfl⟩

/-- C9: the aggregate channel (`configChangedEvent`) fires only from a
successful non-silent `setProperty` call; `applyConfig`, `reset`,
`refresh`, `refireEvent` and `fireDeferredEvents` go through the private
fire logic directly, fire only per-property channels, and never the
aggregate channel. -/
theorem aggregate_only_from_setProperty :
    (∀ dom uc isInitial c k v d,
      Ev.configChanged k v d ∉ (applyConfig dom uc isInitial c).2) ∧
    (∀ dom c k v d, Ev.configChanged k v d ∉ (reset dom c).2) ∧
    (∀ dom c k v d, Ev.configChanged k v d ∉ (refresh dom c).2) ∧
    (∀ dom key c k v d,
      Ev.configChanged k v d ∉ (refireEvent dom key c).2) ∧
    (∀ dom c k v d,
      Ev.configChanged k v d ∉ (fireDeferredEvents dom c).2) ∧
    (∀ dom key value silent c k v d,
      Ev.configChanged k v d ∈ (setProperty dom key value silent c).2.2 →
      silent = false ∧ (setProperty dom key value silent c).1 = true ∧
        k = key ∧ v = value) ∧
    (∀ dom key value c, (setProperty dom key value false c).1 = true →
      ∃ d, Ev.configChanged key value d ∈
        (setProperty dom key value false c).2.2) :=
  ⟨applyConfig_no_aggregate, reset_no_aggregate, refresh_no_aggregate,
    refireEvent_no_aggregate, fireDeferredEvents_no_aggregate,
    setProperty_aggregate_mem, setProperty_aggregate_fires⟩

/-- C9 witness: a successful non-silent set in `abStore` does fire the
aggregate channel. -/
theorem aggregate_only_from_setProperty_witness :
    ∃ d, Ev.configChanged "a" (JSVal.num 3) d ∈
      (setProperty domDetached "a" (JSVal.num 3) false abStore).2.2 :=
  aggregate_only_from_setProperty.2.2.2.2.2.2 domDetached "a" (JSVal.num 3)
    abStore (by decide)

/-- C4: `applyConfig(userConfig, isInitial)` for a `userConfig` with
distinct keys: when `isInitial` the snapshot is replaced wholesale by
`userConfig` (no merge); the final descriptor state equals the state after
the first, purely silent pass (so every value is assigned before any
listener observes any of them, and the firing pass changes no values);
every property event fired carries the original `userConfig` value for its
key (the payload is not re-read from `currentValue`); and every key of
`userConfig` that is registered with no DOM dependency and no `mustChange`
gate does get its channel fired with the `userConfig` value. -/
theorem applyConfig_two_pass (dom : String → Bool) (uc : AList JSVal)
    (isInitial : Bool) (c : Config)
    (hnd : (uc.map Prod.fst).Nodup) :
    (applyConfig dom uc isInitial c).1.initialConfig =
      (if isInitial then uc else c.initialConfig) ∧
    (applyConfig dom uc isInitial c).1.config =
      (applyConfigPass1 dom uc
        (if isInitial then { c with initialConfig := uc } else c)).config ∧
    (∀ k v, Ev.propFire k v ∈ (applyConfig dom uc isInitial c).2 →
      alookup uc k = some v) ∧
    (∀ k v p, (k, v) ∈ uc → alookup c.config k = some p →
      p.dependentElement = none → p.mustChange = false →
      Ev.propFire k v ∈ (applyConfig dom uc isInitial c).2) := by
  refine ⟨?_, ?_, ?_, ?_⟩
  · unfold applyConfig
    rw [applyConfigPass2_initialConfig, applyConfigPass1_initialConfig]
    cases isInitial <;> rfl
  · unfold applyConfig
    rw [applyConfigPass2_config]
  · intro k v hmem
    obtain ⟨kv, hkv, he⟩ := applyConfigPass2_trace_mem dom uc _ _ hmem
    have hk : k = kv.1 := (Ev.propFire.injEq .. |>.mp he).1
    have hv : v = kv.2 := (Ev.propFire.injEq .. |>.mp he).2
    subst hk
    subst hv
    exact alookup_of_mem_nodup uc kv.1 kv.2 (by simpa using hkv) hnd
  · intro k v p hkv hp hdepn hmcf
    have hshape : (alookup (applyConfigPass1 dom uc
        (if isInitial then { c with initialConfig := uc } else c)).config
        k).map Property.shape = (alookup c.config k).map Property.shape := by
      rw [applyConfigPass1_shape]
      cases isInitial <;> rfl
    rw [hp] at hshape
    cases hp' : alookup (applyConfigPass1 dom uc
        (if isInitial then { c with initialConfig := uc } else c)).config k
      with
    | none => rw [hp'] at hshape; cases hshape
    | some p' =>
      rw [hp'] at hshape
      have hsh := Option.some.injEq .. |>.mp hshape
      have hdep' : p'.dependentElement = none := by
        have := congrArg (fun s => s.2.2.1) hsh
        simpa [Property.shape] using this.trans (congrArg _ rfl) |>.trans
          (by simp [Property.shape, hdepn])
      have hmc' : p'.mustChange = false := by
        have := congrArg (fun s => s.2.2.2) hsh
        simpa [Property.shape] using this.trans (congrArg _ rfl) |>.trans
          (by simp [Property.shape, hmcf])
      exact applyConfigPass2_fires dom uc _ k v p' hkv hp' hdep' hmc'

/-- C4 witness: applying `{a: 1, b: 2}` initially to `abStore`. -/
theorem applyConfig_two_pass_witness :
    (applyConfig domDetached [("a", JSVal.num 1), ("b", JSVal.num 2)] true
      abStore).1.initialConfig =
      [("a", JSVal.num 1), ("b", JSVal.num 2)] ∧
    Ev.propFire "a" (JSVal.num 1) ∈
      (applyConfig domDetached [("a", JSVal.num 1), ("b", JSVal.num 2)] true
        abStore).2 := by
  have h := applyConfig_two_pass domDetached
    [("a", JSVal.num 1), ("b", JSVal.num 2)] true abStore (by decide)
  refine ⟨h.1, ?_⟩
  exact h.2.2.2 "a" (JSVal.num 1)
    { defaultValue := JSVal.num 0, value := JSVal.num 0, validator := none,
      dependentElement := none, mustChange := false }
    (by decide) rfl rfl rfl

/-- C1 counterexample: in `pendingStore` (pending value `7` for `n`, whose
dependency is the element `el`), flushing while `el` is still unattached
fires nothing — the fire logic re-checks the DOM dependency at flush time —
and the queue entry survives; flushing with `el` attached does fire, but
the entry is still not removed from the deferred queue afterwards.  Both
halves of the claim ("fires regardless of the dependency" and "removes the
entry") are false at this input. -/
theorem fireDeferredEvents_claim_cex :
    (fireDeferredEvents domDetached pendingStore).2 = [] ∧
    alookup (fireDeferredEvents domDetached
      pendingStore).1.deferredEvents "n" = some (JSVal.num 7) ∧
    Ev.propFire "n" (JSVal.num 7) ∈
      (fireDeferredEvents domAttached pendingStore).2 ∧
    alookup (fireDeferredEvents domAttached
      pendingStore).1.deferredEvents "n" = some (JSVal.num 7) := by
  exact ⟨rfl, rfl, by decide, rfl⟩

/-- C1 (amended): for every pending entry of the deferred queue (with
distinct queue keys), `fireDeferredEvents` re-attempts the fire with the
pending value; the fire logic re-checks the DOM dependency at flush time,
so when the dependency is satisfied (or absent) — and the `mustChange`
gate, which compares the stored current value against the default, permits
— the property's channel fires with the pending value; the entry is NOT
removed from the deferred queue after the fire. -/
theorem fireDeferredEvents_fires_pending (dom : String → Bool)
    (c : Config) (k : String) (v : JSVal) (p : Property)
    (hnd : (c.deferredEvents.map Prod.fst).Nodup)
    (hq : alookup c.deferredEvents k = some v)
    (hp : alookup c.config k = some p)
    (hdep : ∀ el, p.dependentElement = some el → dom el = true)
    (hg : p.mustChange = true → looseEq p.defaultValue p.value = false) :
    Ev.propFire k v ∈ (fireDeferredEvents dom c).2 ∧
    alookup (fireDeferredEvents dom c).1.deferredEvents k = some v := by
  obtain ⟨q₁, t₁, t₂, ht₁, ht₂, hq₁, htr, hqf⟩ :=
    fireDeferredEvents_split dom c k v p hnd hq hp
  rcases fireEvent_cases dom k p v q₁ with ⟨el, hd, he, heq⟩ | ⟨hall, heq⟩
  · rw [hdep el hd] at he
    cases he
  · have hevs : (fireEvent dom k p v q₁).2.2 = [Ev.propFire k v] := by
      rw [heq]
      cases hmc : p.mustChange
      · simp
      · simp [hg hmc]
    refine ⟨?_, ?_⟩
    · rw [htr, hevs]
      exact List.mem_append_left t₂
        (List.mem_append_right t₁ (List.mem_singleton.mpr rfl))
    · rw [hqf, heq]
      exact hq₁

/-- C1 witness: flushing `pendingStore` with every element attached fires
the pending `7` for `n` and keeps the queue entry. -/
theorem fireDeferredEvents_fires_pending_witness :
    Ev.propFire "n" (JSVal.num 7) ∈
      (fireDeferredEvents domAttached pendingStore).2 ∧
    alookup (fireDeferredEvents domAttached
      pendingStore).1.deferredEvents "n" = some (JSVal.num 7) :=
  fireDeferredEvents_fires_pending domAttached pendingStore "n"
    (JSVal.num 7)
    { defaultValue := JSVal.num 0, value := JSVal.num 7, validator := none,
      dependentElement := some "el", mustChange := false }
    (by decide) rfl rfl (fun _ _ => rfl) (fun h => nomatch h)

/-- C10: when `fireDeferredEvents` processes a pending entry whose DOM
dependency is still unattached at flush time, the pending value is
re-deferred — after the flush the deferred queue still maps the property's
name to the pending value — and the property's channel does not fire for
that name: the pending notification is neither fired nor lost. -/
theorem fireDeferredEvents_redefers_unattached (dom : String → Bool)
    (c : Config) (k : String) (v : JSVal) (p : Property) (el : String)
    (hnd : (c.deferredEvents.map Prod.fst).Nodup)
    (hq : alookup c.deferredEvents k = some v)
    (hp : alookup c.config k = some p)
    (hdep : p.dependentElement = some el) (hel : dom el = false) :
    alookup (fireDeferredEvents dom c).1.deferredEvents k = some v ∧
    ∀ v', Ev.propFire k v' ∉ (fireDeferredEvents dom c).2 := by
  obtain ⟨q₁, t₁, t₂, ht₁, ht₂, hq₁, htr, hqf⟩ :=
    fireDeferredEvents_split dom c k v p hnd hq hp
  rcases fireEvent_cases dom k p v q₁ with ⟨el', hd', he', heq⟩ |
    ⟨hall, heq⟩
  · refine ⟨?_, ?_⟩
    · rw [hqf, heq]
      exact alookup_aupsert_self q₁ k v
    · intro v' hmem
      rw [htr, heq] at hmem
      simp only [List.append_nil] at hmem
      rcases List.mem_append.mp hmem with h1 | h2
      · exact ht₁ v' h1
      · exact ht₂ v' h2
  · rw [hall el hdep] at hel
    cases hel

/-- C10 witness: flushing `pendingStore` while `el` is still unattached
keeps the pending `7` for `n` and fires nothing for `n`. -/
theorem fireDeferredEvents_redefers_unattached_witness :
    alookup (fireDeferredEvents domDetached
      pendingStore).1.deferredEvents "n" = some (JSVal.num 7) ∧
    ∀ v', Ev.propFire "n" v' ∉
      (fireDeferredEvents domDetached pendingStore).2 :=
  fireDeferredEvents_redefers_unattached domDetached pendingStore "n"
    (JSVal.num 7)
    { defaultValue := JSVal.num 0, value := JSVal.num 7, validator := none,
      dependentElement := some "el", mustChange := false }
    "el" (by decide) rfl rfl rfl rfl

end YUIConfig
